/-
Verification of the Spatiotemporal Trend Statistics & Zonal Aggregation Engine
(EEJWebApp repository, `src/python/TrendsCode`).

The development shallowly embeds the numerical pipeline of
`GreenLSTTrends3YrMedians.RasterLinModel` (per-entity trend statistics over a
temporal stack, with numpy NaN-aware reductions and IEEE-style special values
modelled by the inductive type `F`), the no-data resolution step of the same
function, the zonal write-back loops of `CollectCensusTractStats2/3
.AddRasterStatistics` (vector layer modelled as a list of keyed features with
association-list fields), and the per-zone skip-on-exception driver loop.

Floating-point numbers are modelled as exact rationals extended with signed
infinities and NaN; the library square root and the Student-t survival
function are external collaborators (numpy / scipy) and enter as explicit
function parameters, constrained by hypotheses only where a theorem needs a
property that the real functions have (e.g. sqrt 0 = 0, sqrt q > 0 for q > 0,
sf(+inf) = 0).  `ratSqrt` and `sfModel` are concrete instances of those
parameters used by the closed witnesses: `ratSqrt` agrees with the exact
square root on perfect squares and returns the positive placeholder 1
elsewhere, and `sfModel` is a strictly decreasing survival-function-shaped
map with sf(-x) = 1 - sf(x) and the correct limits at the infinities.
-/
import Mathlib

set_option linter.all false

set_option allowUnsafeReducibility true

attribute [semireducible] Rat.add Rat.mul Rat.sub Rat.inv

/-- IEEE-style numeric value: a finite rational, a signed infinity
(`inf true` is +inf), or NaN.  Mirrors the float values flowing through the
numpy pipeline of `RasterLinModel`. -/
inductive F where
  | num : ℚ → F
  | inf : Bool → F
  | nan : F
deriving DecidableEq, Repr

namespace F

/-- Negation of a float-like value. -/
def neg : F → F
  | num q => num (-q)
  | inf s => inf (!s)
  | nan => nan

/-- IEEE-style addition: infinities of opposite sign give NaN, NaN absorbs. -/
def add : F → F → F
  | num a, num b => num (a + b)
  | num _, inf s => inf s
  | inf s, num _ => inf s
  | inf s, inf t => if s = t then inf s else nan
  | nan, _ => nan
  | _, nan => nan

/-- IEEE-style multiplication: 0 * inf = NaN, signs multiply, NaN absorbs. -/
def mul : F → F → F
  | num a, num b => num (a * b)
  | num a, inf s => if a = 0 then nan else inf (decide (0 < a) == s)
  | inf s, num a => if a = 0 then nan else inf (decide (0 < a) == s)
  | inf s, inf t => inf (s == t)
  | nan, _ => nan
  | _, nan => nan

/-- IEEE-style division as numpy produces it on arrays: 0/0 = NaN,
x/0 = signed infinity for x ≠ 0, x/inf = 0, inf/inf = NaN, NaN absorbs.
(Negative zero is not modelled; no denominator in the pipeline is -0.) -/
def div : F → F → F
  | num a, num b =>
      if b = 0 then (if a = 0 then nan else inf (decide (0 < a)))
      else num (a / b)
  | num _, inf _ => num 0
  | inf s, num b => if b = 0 then inf s else inf (decide (0 < b) == s)
  | inf s, inf _ => nan
  | nan, _ => nan
  | _, nan => nan

/-- Subtraction, derived from addition and negation as in IEEE. -/
def sub (x y : F) : F := add x (neg y)

/-- Whether the value is the NaN marker. -/
def isNan : F → Bool
  | nan => true
  | _ => false

instance : Add F := ⟨add⟩
instance : Mul F := ⟨mul⟩
instance : Div F := ⟨div⟩
instance : Neg F := ⟨neg⟩
instance : Sub F := ⟨sub⟩

end F

/-- `np.sqrt` lifted over `F`, parameterised by the square root `sqrt` used on
finite nonnegative rationals: negative input gives NaN, sqrt(+inf) = +inf,
sqrt(-inf) = NaN, NaN absorbs. -/
def sqrtF (sqrt : ℚ → ℚ) : F → F
  | F.num a => if a < 0 then F.nan else F.num (sqrt a)
  | F.inf true => F.inf true
  | F.inf false => F.nan
  | F.nan => F.nan

/-- Fuel-driven integer square root scan: largest `m ≤ fuel` with `m*m ≤ n`. -/
def isqrtScan (n : Nat) : Nat → Nat
  | 0 => 0
  | m + 1 => if (m + 1) * (m + 1) ≤ n then m + 1 else isqrtScan n m

/-- Integer square root (floor). -/
def isqrt (n : Nat) : Nat := isqrtScan n n

/-- Concrete square-root instance used by the closed witnesses.  It agrees
with the exact square root on rationals whose numerator and denominator are
perfect squares, and returns the positive placeholder 1 on other positive
inputs (every closed evaluation below uses it only at perfect squares or
through its positivity). -/
def ratSqrt (q : ℚ) : ℚ :=
  if q ≤ 0 then 0
  else
    let a := isqrt q.num.toNat
    let b := isqrt q.den
    if a * a = q.num.toNat ∧ b * b = q.den then (a : ℚ) / (b : ℚ) else 1

/-- Concrete Student-t survival-function stand-in used by the closed
witnesses: strictly decreasing in the statistic, with sf(-x) = 1 - sf(x),
sf(0) = 1/2, sf(+inf) = 0, sf(-inf) = 1, and NaN propagation.  The degrees of
freedom argument is accepted (as in `scipy.stats.t.sf`) but does not change
those shape properties. -/
def sfModel (_df : ℚ) : F → F
  | F.num q => F.num (1 / 2 - q / (2 * (1 + |q|)))
  | F.inf true => F.num 0
  | F.inf false => F.num 1
  | F.nan => F.nan

/-- Number of non-NaN entries of a stack slice (the count `np.nanmean` and
`np.nanstd` divide by). -/
def countValid : List F → Nat
  | [] => 0
  | F.num _ :: t => countValid t + 1
  | F.inf _ :: t => countValid t + 1
  | F.nan :: t => countValid t

/-- `np.nansum`: NaN entries are skipped, everything else is added. -/
def nansumF : List F → F
  | [] => F.num 0
  | F.num q :: t => F.num q + nansumF t
  | F.inf s :: t => F.inf s + nansumF t
  | F.nan :: t => nansumF t

/-- `np.nanmean`: nansum divided by the count of valid entries; an all-NaN
slice yields NaN. -/
def nanmeanF (l : List F) : F :=
  if countValid l = 0 then F.nan else nansumF l / F.num (countValid l)

/-- `np.nanstd` (ddof = 0): square root of the NaN-aware mean of squared
deviations from the NaN-aware mean. -/
def nanstdF (sqrt : ℚ → ℚ) (l : List F) : F :=
  sqrtF sqrt (nanmeanF (l.map (fun x => (x - nanmeanF l) * (x - nanmeanF l))))

/-- `cov = np.nansum((time - xmean)*(band - ymean), axis=2)/(n)` with
`n = band_data.shape[2]`, i.e. the total number of layers, per
`RasterLinModel` line 147. -/
def covF (ts vs : List F) : F :=
  nansumF (List.zipWith (fun a b => (a - nanmeanF ts) * (b - nanmeanF vs)) ts vs)
    / F.num (vs.length)

/-- `cor = cov/(xstd*ystd)`, per `RasterLinModel` line 150. -/
def corF (sqrt : ℚ → ℚ) (ts vs : List F) : F :=
  covF ts vs / (nanstdF sqrt ts * nanstdF sqrt vs)

/-- `slope = cov/(xstd**2)`, per `RasterLinModel` line 153. -/
def slopeF (sqrt : ℚ → ℚ) (ts vs : List F) : F :=
  covF ts vs / (nanstdF sqrt ts * nanstdF sqrt ts)

/-- `intercept = ymean - xmean*slope`, per `RasterLinModel` line 154. -/
def interceptF (sqrt : ℚ → ℚ) (ts vs : List F) : F :=
  nanmeanF vs - nanmeanF ts * slopeF sqrt ts vs

/-- `tstats = cor*np.sqrt(n-2)/np.sqrt(1-cor**2)`, per `RasterLinModel`
line 158, with `n` the total layer count. -/
def tstatsF (sqrt : ℚ → ℚ) (ts vs : List F) : F :=
  corF sqrt ts vs * sqrtF sqrt (F.num ((vs.length : ℚ) - 2))
    / sqrtF sqrt (F.num 1 - corF sqrt ts vs * corF sqrt ts vs)

/-- `stderr = slope/tstats`, per `RasterLinModel` line 159. -/
def stderrF (sqrt : ℚ → ℚ) (ts vs : List F) : F :=
  slopeF sqrt ts vs / tstatsF sqrt ts vs

/-- `pval = t.sf(tstats, n-2)*2`, per `RasterLinModel` line 160: the survival
function is applied to the signed t statistic (no absolute value). -/
def pvalOf (sf : ℚ → F → F) (df : ℚ) (tst : F) : F := sf df tst * F.num 2

/-- The p-value of an entity, `pvalOf` applied at the computed t statistic. -/
def pvalF (sqrt : ℚ → ℚ) (sf : ℚ → F → F) (ts vs : List F) : F :=
  pvalOf sf ((vs.length : ℚ) - 2) (tstatsF sqrt ts vs)

/-- The statistic set computed for one entity by `RasterLinModel`
lines 137-160. -/
structure TrendResult where
  cov : F
  cor : F
  slope : F
  intercept : F
  tstats : F
  stderr : F
  pval : F
deriving DecidableEq, Repr

/-- Per-entity reading of the vectorized statistics pass of `RasterLinModel`
lines 137-160: `ts` is the entity's column of the time stack and `vs` its
column of the observation stack. -/
def trendStats (sqrt : ℚ → ℚ) (sf : ℚ → F → F) (ts vs : List F) : TrendResult :=
  { cov := covF ts vs
    cor := corF sqrt ts vs
    slope := slopeF sqrt ts vs
    intercept := interceptF sqrt ts vs
    tstats := tstatsF sqrt ts vs
    stderr := stderrF sqrt ts vs
    pval := pvalF sqrt sf ts vs }

/-- `arr[arr == nodata] = np.nan` at one entity (`RasterLinModel` line 128). -/
def resolveValue (nodata : ℚ) (v : ℚ) : F :=
  if v = nodata then F.nan else F.num v

/-- `time_arr[arr == nodata] = np.nan` at one entity (`RasterLinModel`
line 129): the mask is recomputed on the already-updated value array, so the
comparison is against the post-assignment value. -/
def resolveTime (nodata : ℚ) (v : F) (y : ℚ) : F :=
  if v = F.num nodata then F.nan else F.num y

/-- No-data resolution for one entity across all bands (`RasterLinModel`
lines 120-132, statement order preserved): first the value column is updated,
then the time column is masked using the updated value column.  Returns
(value column, time column). -/
def resolveNoData (nodata : ℚ) (vs ts : List ℚ) : List F × List F :=
  let vArr := vs.map (resolveValue nodata)
  (vArr, (vArr.zip ts).map (fun p => resolveTime nodata p.1 p.2))

/-- Full per-entity pipeline of `RasterLinModel`: no-data resolution followed
by the vectorized statistics pass. -/
def entityTrend (sqrt : ℚ → ℚ) (sf : ℚ → F → F) (nodata : ℚ)
    (ts vs : List ℚ) : TrendResult :=
  trendStats sqrt sf (resolveNoData nodata vs ts).2 (resolveNoData nodata vs ts).1

/-- The `since` offsets of `RasterLinModel` lines 98-104: middle years
`range(start_year+1, end_year+1, 3)` shifted by `start_year`. -/
def sinceList (s e : Nat) : List Nat :=
  (List.range' (s + 1) ((e + 1 - (s + 1) + 2) / 3) 3).map (fun y => y - s)

/-- Exact mean of a rational list. -/
def meanQ (l : List ℚ) : ℚ := l.sum / l.length

/-- Exact population variance of a rational list. -/
def varQ (l : List ℚ) : ℚ :=
  ((l.map (fun t => (t - meanQ l) * (t - meanQ l))).sum) / l.length

/-- Exact covariance with denominator `vs.length`, the rational shadow of
`covF` on fully valid columns. -/
def covQ (ts vs : List ℚ) : ℚ :=
  ((List.zipWith (fun a b => (a - meanQ ts) * (b - meanQ vs)) ts vs).sum)
    / vs.length

/-- Band labels written by `RasterLinModel` line 163 (source spelling kept). -/
def statLabs : List String :=
  ["covaraince", "correlation", "slope", "intercept", "tstat", "stderr", "pval"]

/-- A band of the output trend raster: textual description and no-data. -/
structure RasterBand where
  description : String
  noDataValue : ℚ
deriving DecidableEq, Repr

/-- The bands of the output trend raster produced by `RasterLinModel`
lines 167-184: one band per entry of `stat_labs`, each tagged with its label
as description and no-data -9999.0. -/
def outputBands : List RasterBand :=
  statLabs.map (fun lab => { description := lab, noDataValue := -9999 })

/-- A vector feature: unique zone key plus attribute fields. -/
structure Feature where
  key : String
  fields : List (String × ℚ)
deriving DecidableEq, Repr

/-- First-match field lookup in a feature's attribute list. -/
def lookupField : List (String × ℚ) → String → Option ℚ
  | [], _ => none
  | (m, w) :: t, n => if m = n then some w else lookupField t n

/-- `feat.SetField`: overwrite the first existing binding of the field name,
or append a new binding if the field is absent. -/
def updateAssoc : List (String × ℚ) → String → ℚ → List (String × ℚ)
  | [], n, v => [(n, v)]
  | (m, w) :: t, n, v => if m = n then (n, v) :: t else (m, w) :: updateAssoc t n v

/-- Set one field of one feature. -/
def setField (f : Feature) (n : String) (v : ℚ) : Feature :=
  { key := f.key, fields := updateAssoc f.fields n v }

/-- Apply a list of field assignments to one feature, in order. -/
def applyFields (vals : List (String × ℚ)) (f : Feature) : Feature :=
  vals.foldl (fun g p => setField g p.1 p.2) f

/-- The Feature Attribute Writer (`CollectCensusTractStats3` lines 198-210,
`CollectCensusTractStats2` lines 157-167): filter the layer by zone key and
set every computed field on every matching feature, leaving the others
untouched. -/
def writeFeatureFields (key : String) (vals : List (String × ℚ))
    (layer : List Feature) : List Feature :=
  layer.map (fun f => if f.key = key then applyFields vals f else f)

/-- Number of pixels of class `c` in a (flattened, already masked) class
grid: `(in_mem_gsc == i).sum()` of `CollectCensusTractStats3` lines 219-220. -/
def countClass (grid : List ℚ) (c : ℚ) : Nat :=
  (grid.filter (fun x => x = c)).length

/-- `class_area = (in_mem_gsc == i).sum() * 5 * 5`
(`CollectCensusTractStats3` line 220). -/
def classArea (grid : List ℚ) (c : ℚ) : ℚ :=
  (countClass grid c : ℚ) * 5 * 5

/-- The class-area write loop of `CollectCensusTractStats3` lines 216-224,
sequentialized in loop order over the fixed classes 1 = green, 2 = water,
3 = urban. -/
def writeClassAreas (grid : List ℚ) (key : String)
    (layer : List Feature) : List Feature :=
  writeFeatureFields key [("urbanArea", classArea grid 3)]
    (writeFeatureFields key [("waterArea", classArea grid 2)]
      (writeFeatureFields key [("greenArea", classArea grid 1)] layer))

/-- `CollectCensusTractStats2` lines 150-155: a zonal sum of `None` is
replaced by 0 before the area multiplication. -/
def sumOrZero (s : Option ℚ) : ℚ :=
  match s with
  | none => 0
  | some v => v

/-- One iteration of the zone loop of `CollectCensusTractStats3`
lines 114-126: if the clip/mask collaborator raises, the zone is skipped
(`continue`) and the layer is untouched; otherwise the loop body runs. -/
def processZone {Z M : Type} (maskOp : Z → Except String M)
    (body : Z → M → List Feature → List Feature)
    (layer : List Feature) (z : Z) : List Feature :=
  match maskOp z with
  | Except.error _ => layer
  | Except.ok m => body z m layer

/-- The zone driver loop of `CollectCensusTractStats3` lines 114-224: fold
`processZone` over the zone list. -/
def processZones {Z M : Type} (maskOp : Z → Except String M)
    (body : Z → M → List Feature → List Feature)
    (layer : List Feature) (zones : List Z) : List Feature :=
  zones.foldl (processZone maskOp body) layer

/-! ### Arithmetic reduction lemmas for `F` -/

@[simp] theorem F.num_add_num (a b : ℚ) : F.num a + F.num b = F.num (a + b) := rfl

@[simp] theorem F.nan_add (x : F) : F.nan + x = F.nan := by cases x <;> rfl

@[simp] theorem F.add_nan (x : F) : x + F.nan = F.nan := by cases x <;> rfl

@[simp] theorem F.num_sub_num (a b : ℚ) : F.num a - F.num b = F.num (a - b) := by
  show F.sub _ _ = _
  simp [F.sub, F.add, F.neg, sub_eq_add_neg]

@[simp] theorem F.nan_sub (x : F) : F.nan - x = F.nan := by cases x <;> rfl

@[simp] theorem F.sub_nan (x : F) : x - F.nan = F.nan := by cases x <;> rfl

@[simp] theorem F.num_mul_num (a b : ℚ) : F.num a * F.num b = F.num (a * b) := rfl

@[simp] theorem F.nan_mul (x : F) : F.nan * x = F.nan := by cases x <;> rfl

@[simp] theorem F.mul_nan (x : F) : x * F.nan = F.nan := by cases x <;> rfl

@[simp] theorem F.nan_div (x : F) : F.nan / x = F.nan := by cases x <;> rfl

@[simp] theorem F.div_nan (x : F) : x / F.nan = F.nan := by cases x <;> rfl

@[simp] theorem F.num_div_inf (a : ℚ) (s : Bool) : F.num a / F.inf s = F.num 0 := rfl

theorem F.num_div_num (a b : ℚ) :
    F.num a / F.num b =
      if b = 0 then (if a = 0 then F.nan else F.inf (decide (0 < a)))
      else F.num (a / b) := rfl

theorem F.num_div_num_ne (a : ℚ) {b : ℚ} (h : b ≠ 0) :
    F.num a / F.num b = F.num (a / b) := by
  rw [F.num_div_num, if_neg h]

theorem F.num_div_zero_pos {a : ℚ} (h : 0 < a) :
    F.num a / F.num 0 = F.inf true := by
  rw [F.num_div_num]
  simp [h, ne_of_gt h]

theorem F.num_div_zero_neg {a : ℚ} (h : a < 0) :
    F.num a / F.num 0 = F.inf false := by
  rw [F.num_div_num]
  simp [ne_of_lt h, not_lt.mpr (le_of_lt h)]

@[simp] theorem F.zero_div_zero : F.num 0 / F.num 0 = F.nan := rfl

@[simp] theorem F.num_mul_inf (a : ℚ) (s : Bool) :
    F.num a * F.inf s = if a = 0 then F.nan else F.inf (decide (0 < a) == s) := rfl

@[simp] theorem F.sqrtF_num (sqrt : ℚ → ℚ) (a : ℚ) :
    sqrtF sqrt (F.num a) = if a < 0 then F.nan else F.num (sqrt a) := by
  rfl

@[simp] theorem F.sqrtF_nan (sqrt : ℚ → ℚ) : sqrtF sqrt F.nan = F.nan := rfl

/-! ### Transport lemmas: NaN-aware reductions on fully valid columns -/

theorem countValid_map_num (l : List ℚ) : countValid (l.map F.num) = l.length := by
  induction l with
  | nil => rfl
  | cons h t ih => simp [countValid, ih]

theorem nansumF_map_num (l : List ℚ) : nansumF (l.map F.num) = F.num l.sum := by
  induction l with
  | nil => rfl
  | cons h t ih => simp [nansumF, ih]

theorem nanmeanF_map_num {l : List ℚ} (h : l ≠ []) :
    nanmeanF (l.map F.num) = F.num (meanQ l) := by
  have hlen : l.length ≠ 0 := fun hc => h (List.length_eq_zero.mp hc)
  have hlenQ : (l.length : ℚ) ≠ 0 := Nat.cast_ne_zero.mpr hlen
  rw [nanmeanF, countValid_map_num, if_neg hlen, nansumF_map_num,
    F.num_div_num_ne _ hlenQ, meanQ]

theorem varQ_nonneg (l : List ℚ) : 0 ≤ varQ l := by
  apply div_nonneg _ (Nat.cast_nonneg _)
  apply List.sum_nonneg
  intro x hx
  rcases List.mem_map.mp hx with ⟨t, _, rfl⟩
  exact mul_self_nonneg _

theorem nanstdF_map_num (sqrt : ℚ → ℚ) {l : List ℚ} (h : l ≠ []) :
    nanstdF sqrt (l.map F.num) = F.num (sqrt (varQ l)) := by
  have hmap : (l.map F.num).map
      (fun x => (x - nanmeanF (l.map F.num)) * (x - nanmeanF (l.map F.num)))
      = (l.map (fun t => (t - meanQ l) * (t - meanQ l))).map F.num := by
    rw [nanmeanF_map_num h, List.map_map, List.map_map]
    apply List.map_congr_left
    intro t _
    simp
  have hne : l.map (fun t => (t - meanQ l) * (t - meanQ l)) ≠ [] := by
    simpa using h
  have hv : meanQ (l.map (fun t => (t - meanQ l) * (t - meanQ l))) = varQ l := by
    rw [meanQ, varQ, List.length_map]
  rw [nanstdF, hmap, nanmeanF_map_num hne, hv, F.sqrtF_num,
    if_neg (not_lt.mpr (varQ_nonneg l))]

theorem zipWith_devs_num (X Y : ℚ) (ts vs : List ℚ) :
    List.zipWith (fun a b => (a - F.num X) * (b - F.num Y))
      (ts.map F.num) (vs.map F.num)
      = (List.zipWith (fun a b => (a - X) * (b - Y)) ts vs).map F.num := by
  induction ts generalizing vs with
  | nil => simp
  | cons a t ih =>
    cases vs with
    | nil => simp
    | cons b v => simp [ih]

theorem covF_map_num {ts vs : List ℚ} (hts : ts ≠ []) (hvs : vs ≠ []) :
    covF (ts.map F.num) (vs.map F.num) = F.num (covQ ts vs) := by
  have hlen : (vs.length : ℚ) ≠ 0 := by
    exact_mod_cast fun hc => hvs (List.length_eq_zero.mp hc)
  rw [covF, nanmeanF_map_num hts, nanmeanF_map_num hvs, zipWith_devs_num,
    nansumF_map_num, List.length_map, F.num_div_num_ne _ hlen, covQ]

/-! ### Reductions on columns with missing periods -/

theorem nansumF_const {c : ℚ} :
    ∀ {vs : List F}, (∀ x ∈ vs, x = F.nan ∨ x = F.num c) →
      nansumF vs = F.num (c * countValid vs) := by
  intro vs
  induction vs with
  | nil => intro _; simp [nansumF, countValid]
  | cons x t ih =>
    intro h
    rcases h x (List.mem_cons_self x t) with hx | hx <;> subst hx
    · rw [nansumF, ih (fun y hy => h y (List.mem_cons_of_mem _ hy))]
      rfl
    · rw [nansumF, ih (fun y hy => h y (List.mem_cons_of_mem _ hy))]
      simp only [countValid, F.num_add_num]
      push_cast
      ring_nf

theorem nanmeanF_const {c : ℚ} {vs : List F}
    (h : ∀ x ∈ vs, x = F.nan ∨ x = F.num c) (hk : countValid vs ≠ 0) :
    nanmeanF vs = F.num c := by
  have hkQ : (countValid vs : ℚ) ≠ 0 := Nat.cast_ne_zero.mpr hk
  rw [nanmeanF, if_neg hk, nansumF_const h, F.num_div_num_ne _ hkQ,
    mul_div_assoc, div_self hkQ, mul_one]

theorem countValid_devs {c : ℚ} :
    ∀ {vs : List F}, (∀ x ∈ vs, x = F.nan ∨ x = F.num c) →
      countValid (vs.map (fun x => (x - F.num c) * (x - F.num c))) = countValid vs := by
  intro vs
  induction vs with
  | nil => intro _; rfl
  | cons x t ih =>
    intro h
    rcases h x (List.mem_cons_self x t) with hx | hx <;> subst hx <;>
      simp [countValid, ih (fun y hy => h y (List.mem_cons_of_mem _ hy))]

theorem devs_const {c : ℚ} {vs : List F}
    (h : ∀ x ∈ vs, x = F.nan ∨ x = F.num c) :
    ∀ y ∈ vs.map (fun x => (x - F.num c) * (x - F.num c)),
      y = F.nan ∨ y = F.num 0 := by
  intro y hy
  rcases List.mem_map.mp hy with ⟨x, hx, rfl⟩
  rcases h x hx with hx2 | hx2 <;> subst hx2 <;> simp

theorem nanstdF_const (sqrt : ℚ → ℚ) {c : ℚ} {vs : List F}
    (h : ∀ x ∈ vs, x = F.nan ∨ x = F.num c) (hk : countValid vs ≠ 0)
    (h0 : sqrt 0 = 0) :
    nanstdF sqrt vs = F.num 0 := by
  have hmean : nanmeanF vs = F.num c := nanmeanF_const h hk
  have hcnt : countValid (vs.map (fun x => (x - F.num c) * (x - F.num c)))
      = countValid vs := countValid_devs h
  have hzero : ∀ y ∈ vs.map (fun x => (x - F.num c) * (x - F.num c)),
      y = F.nan ∨ y = F.num 0 := devs_const h
  rw [nanstdF, hmean]
  rw [nanmeanF, hcnt, if_neg hk, nansumF_const hzero, zero_mul,
    F.num_div_num_ne _ (Nat.cast_ne_zero.mpr hk), zero_div, F.sqrtF_num,
    if_neg (lt_irrefl 0), h0]

theorem nansumF_zip_const {c X : ℚ} :
    ∀ (ts : List ℚ) (vs : List F), (∀ x ∈ vs, x = F.nan ∨ x = F.num c) →
      nansumF (List.zipWith (fun a b => (a - F.num X) * (b - F.num c))
        (ts.map F.num) vs) = F.num 0 := by
  intro ts
  induction ts with
  | nil => intro vs _; simp [nansumF]
  | cons a t ih =>
    intro vs h
    cases vs with
    | nil => simp [nansumF]
    | cons x v =>
      have hv := ih v (fun y hy => h y (List.mem_cons_of_mem _ hy))
      rcases h x (List.mem_cons_self x v) with hx | hx <;> subst hx
      · simpa [nansumF] using hv
      · simpa [nansumF, hv] using hv

theorem covF_const {c : ℚ} {tsQ : List ℚ} {vs : List F}
    (hts : tsQ ≠ []) (h : ∀ x ∈ vs, x = F.nan ∨ x = F.num c)
    (hk : countValid vs ≠ 0) :
    covF (tsQ.map F.num) vs = F.num 0 := by
  have hvs : vs ≠ [] := by
    intro hc; subst hc; exact hk rfl
  have hlen : (vs.length : ℚ) ≠ 0 := by
    exact_mod_cast fun hc => hvs (List.length_eq_zero.mp hc)
  rw [covF, nanmeanF_map_num hts, nanmeanF_const h hk, nansumF_zip_const tsQ vs h,
    F.num_div_num_ne _ hlen, zero_div]

/-! ### Exact algebra of affine observation series -/

theorem sum_map_affine (a b : ℚ) (l : List ℚ) :
    (l.map (fun t => a + b * t)).sum = a * l.length + b * l.sum := by
  induction l with
  | nil => simp
  | cons h t ih => simp [ih]; ring

theorem meanQ_affine (a b : ℚ) {l : List ℚ} (h : l ≠ []) :
    meanQ (l.map (fun t => a + b * t)) = a + b * meanQ l := by
  have hlen : (l.length : ℚ) ≠ 0 := by
    exact_mod_cast fun hc => h (List.length_eq_zero.mp hc)
  rw [meanQ, meanQ, sum_map_affine, List.length_map]
  field_simp

theorem zipWith_self_map {α β γ : Type} (f : α → β → γ) (g : α → β) :
    ∀ l : List α, List.zipWith f l (l.map g) = l.map (fun t => f t (g t)) := by
  intro l
  induction l with
  | nil => rfl
  | cons h t ih => simp [ih]

theorem covQ_affine (a b : ℚ) {l : List ℚ} (h : l ≠ []) :
    covQ l (l.map (fun t => a + b * t)) = b * varQ l := by
  have hlen : (l.length : ℚ) ≠ 0 := by
    exact_mod_cast fun hc => h (List.length_eq_zero.mp hc)
  rw [covQ, varQ, zipWith_self_map, meanQ_affine a b h, List.length_map]
  have hmap : (l.map fun t => (t - meanQ l) * (a + b * t - (a + b * meanQ l)))
      = l.map (fun t => b * ((t - meanQ l) * (t - meanQ l))) := by
    apply List.map_congr_left
    intro t _
    ring
  rw [hmap, List.sum_map_mul_left, mul_div_assoc]

/-! ### Attribute writer lemmas -/

theorem lookupField_updateAssoc_self (l : List (String × ℚ)) (n : String) (v : ℚ) :
    lookupField (updateAssoc l n v) n = some v := by
  induction l with
  | nil => simp [updateAssoc, lookupField]
  | cons p t ih =>
    by_cases hp : p.1 = n
    · simp [updateAssoc, hp, lookupField]
    · simp [updateAssoc, hp, lookupField, ih]

theorem lookupField_updateAssoc_ne (l : List (String × ℚ)) {m n : String}
    (v : ℚ) (h : m ≠ n) :
    lookupField (updateAssoc l n v) m = lookupField l m := by
  have hnm : n ≠ m := Ne.symm h
  induction l with
  | nil => simp [updateAssoc, lookupField, hnm]
  | cons p t ih =>
    cases p with
    | mk a w =>
      by_cases hp : a = n
      · subst hp
        simp [updateAssoc, lookupField, hnm]
      · simp [updateAssoc, hp, lookupField, ih]

theorem updateAssoc_noop {l : List (String × ℚ)} {n : String} {v : ℚ}
    (h : lookupField l n = some v) : updateAssoc l n v = l := by
  induction l with
  | nil => simp [lookupField] at h
  | cons p t ih =>
    by_cases hp : p.1 = n
    · rw [lookupField] at h
      rw [if_pos hp] at h
      cases p with
      | mk m w =>
        simp only [updateAssoc]
        rw [if_pos hp]
        simp at hp
        simp at h
        rw [hp, h]
    · rw [lookupField] at h
      rw [if_neg hp] at h
      cases p with
      | mk m w =>
        simp only [updateAssoc]
        simp only at hp
        rw [if_neg hp, ih h]

theorem setField_key (f : Feature) (n : String) (v : ℚ) :
    (setField f n v).key = f.key := rfl

theorem applyFields_key (vals : List (String × ℚ)) :
    ∀ f : Feature, (applyFields vals f).key = f.key := by
  induction vals with
  | nil => intro f; rfl
  | cons p t ih =>
    intro f
    rw [applyFields, List.foldl_cons]
    exact ih (setField f p.1 p.2)

theorem applyFields_lookup_away (vals : List (String × ℚ)) :
    ∀ (f : Feature) (n : String), (¬ ∃ p ∈ vals, p.1 = n) →
      lookupField (applyFields vals f).fields n = lookupField f.fields n := by
  induction vals with
  | nil => intro f n _; rfl
  | cons p t ih =>
    intro f n hn
    rw [applyFields, List.foldl_cons]
    have h1 : ¬ ∃ q ∈ t, q.1 = n := by
      intro ⟨q, hq, hq1⟩
      exact hn ⟨q, List.mem_cons_of_mem _ hq, hq1⟩
    have h2 : p.1 ≠ n := by
      intro hc
      exact hn ⟨p, List.mem_cons_self p t, hc⟩
    have := ih (setField f p.1 p.2) n h1
    rw [applyFields] at this
    rw [this, setField]
    exact lookupField_updateAssoc_ne _ _ (fun hc => h2 hc.symm)

theorem applyFields_lookup_mem {vals : List (String × ℚ)}
    (hnd : (vals.map Prod.fst).Nodup) :
    ∀ (f : Feature), ∀ p ∈ vals,
      lookupField (applyFields vals f).fields p.1 = some p.2 := by
  induction vals with
  | nil => intro f p hp; simp at hp
  | cons q t ih =>
    intro f p hp
    have hq1 : q.1 ∉ t.map Prod.fst := (List.nodup_cons.mp hnd).1
    have hndt : (t.map Prod.fst).Nodup := (List.nodup_cons.mp hnd).2
    rcases List.mem_cons.mp hp with hpq | hpt
    · subst hpq
      rw [applyFields, List.foldl_cons]
      have haway : ¬ ∃ r ∈ t, r.1 = p.1 := by
        intro ⟨r, hr, hr1⟩
        exact hq1 (hr1 ▸ List.mem_map_of_mem Prod.fst hr)
      have := applyFields_lookup_away t (setField f p.1 p.2) p.1 haway
      rw [applyFields] at this
      rw [this, setField]
      exact lookupField_updateAssoc_self _ _ _
    · rw [applyFields, List.foldl_cons]
      exact ih hndt (setField f q.1 q.2) p hpt

theorem applyFields_absorb {vals : List (String × ℚ)} :
    ∀ {f : Feature}, (∀ p ∈ vals, lookupField f.fields p.1 = some p.2) →
      applyFields vals f = f := by
  induction vals with
  | nil => intro f _; rfl
  | cons q t ih =>
    intro f h
    rw [applyFields, List.foldl_cons]
    have hset : setField f q.1 q.2 = f := by
      cases f with
      | mk k fl =>
        rw [setField]
        simp only
        rw [updateAssoc_noop (h q (List.mem_cons_self q t))]
    rw [hset]
    exact ih (fun p hp => h p (List.mem_cons_of_mem _ hp))

theorem writeFeatureFields_mem {key : String} {vals : List (String × ℚ)}
    {layer : List Feature} {g : Feature}
    (hg : g ∈ writeFeatureFields key vals layer) :
    ∃ f ∈ layer, (f.key = key ∧ g = applyFields vals f) ∨ (f.key ≠ key ∧ g = f) := by
  rcases List.mem_map.mp hg with ⟨f, hf, hfg⟩
  refine ⟨f, hf, ?_⟩
  by_cases hk : f.key = key
  · left
    rw [if_pos hk] at hfg
    exact ⟨hk, hfg.symm⟩
  · right
    rw [if_neg hk] at hfg
    exact ⟨hk, hfg.symm⟩

/-! ### Claim theorems -/

/-- C2 (evidence of the code bug): at no-data resolution the value column is
overwritten with NaN before the time mask is computed, so the time column of
an entity with a missing period stays fully valid: for values [5, -9999, 9]
at offsets [1, 4, 7] with sentinel -9999 the resolved pair is
([5, NaN, 9], [1, 4, 7]) and the two invalidity masks differ, contradicting
the claimed pairing of time and value invalidity. -/
theorem c2_time_mask_never_fires :
    resolveNoData (-9999) [5, -9999, 9] [1, 4, 7]
      = ([F.num 5, F.nan, F.num 9], [F.num 1, F.num 4, F.num 7])
    ∧ (resolveNoData (-9999) [5, -9999, 9] [1, 4, 7]).1.map F.isNan
      ≠ (resolveNoData (-9999) [5, -9999, 9] [1, 4, 7]).2.map F.isNan := by
  decide

/-- C9 (counterexample): the output trend raster has seven bands, not eight,
and none of them is a median band. -/
theorem c9_not_eight_bands :
    outputBands.length ≠ 8
    ∧ outputBands.length = 7
    ∧ ∀ b ∈ outputBands, b.description ≠ "median" ∧ b.description ≠ "median value" := by
  decide

/-- C9 (amended): the output trend raster has exactly the seven bands
covariance (source label "covaraince"), correlation, slope, intercept,
t-statistic, standard error and p-value, in that order, each band's
description equal to its statistic label and each band's no-data value equal
to -9999.0; there is no median band. -/
theorem c9_seven_bands :
    outputBands =
      [{ description := "covaraince", noDataValue := -9999 },
       { description := "correlation", noDataValue := -9999 },
       { description := "slope", noDataValue := -9999 },
       { description := "intercept", noDataValue := -9999 },
       { description := "tstat", noDataValue := -9999 },
       { description := "stderr", noDataValue := -9999 },
       { description := "pval", noDataValue := -9999 }]
    ∧ ∀ b ∈ outputBands, b.noDataValue = -9999 := by
  decide

/-- C5 (evidence of the code bug): the emitted p-value is
`sf(t, df) * 2` with the signed t statistic, not `2 * sf(|t|, df)`.  For any
survival function `sf` taking the values `a` at t = 3 and `b = 1 - a` at
t = -3 with `0 < a < 1/2` (the Student-t survival function has this shape for
every df > 0), the code's p-value at t = -3 is `2b > 1` — not a p-value at
all — and differs from the code's p-value at t = 3, so the claimed two-tailed
symmetric formula bounded by [0, 1] fails for every negative t statistic. -/
theorem c5_pvalue_not_two_tailed (sf : ℚ → F → F) (df a b : ℚ)
    (h3 : sf df (F.num 3) = F.num a)
    (hm3 : sf df (F.num (-3)) = F.num b)
    (hsym : a + b = 1) (ha : 0 < a) (hhalf : a < 1 / 2) :
    pvalOf sf df (F.num (-3)) = F.num (b * 2)
    ∧ 1 < b * 2
    ∧ pvalOf sf df (F.num (-3)) ≠ pvalOf sf df (F.num 3) := by
  have hb : b = 1 - a := by linarith
  refine ⟨?_, ?_, ?_⟩
  · rw [pvalOf, hm3, F.num_mul_num]
  · rw [hb]; linarith
  · rw [pvalOf, pvalOf, hm3, h3, F.num_mul_num, F.num_mul_num]
    intro hc
    injection hc with hc2
    rw [hb] at hc2
    linarith

/-- C5 witness: the hypotheses of `c5_pvalue_not_two_tailed` are satisfied by
the concrete survival-function instance `sfModel` at df = 5 with a = 1/8,
b = 7/8. -/
theorem c5_pvalue_not_two_tailed_wit :
    pvalOf sfModel 5 (F.num (-3)) = F.num (7 / 8 * 2)
    ∧ 1 < (7 : ℚ) / 8 * 2
    ∧ pvalOf sfModel 5 (F.num (-3)) ≠ pvalOf sfModel 5 (F.num 3) :=
  c5_pvalue_not_two_tailed sfModel 5 (1 / 8) (7 / 8)
    (by decide) (by decide) (by decide) (by decide) (by decide)

/-- C7: a zone whose clip/mask operation raises is skipped — the batch
result over any zone sequence containing it equals the batch result with
that zone removed, so no fields are written for it and every other zone,
before or after it, is still processed; a failing zone never aborts the
batch. -/
theorem c7_failing_zone_skipped {Z M : Type} (maskOp : Z → Except String M)
    (body : Z → M → List Feature → List Feature) (layer : List Feature)
    (pre post : List Z) (z : Z) (e : String)
    (h : maskOp z = Except.error e) :
    processZones maskOp body layer (pre ++ z :: post)
      = processZones maskOp body layer (pre ++ post) := by
  rw [processZones, processZones, List.foldl_append, List.foldl_append,
    List.foldl_cons]
  congr 1
  rw [processZone, h]

/-- C7 witness: concrete batch of three zones in which the middle zone's
mask operation fails; the result equals processing only the other two. -/
theorem c7_failing_zone_skipped_wit :
    processZones
      (fun z => if z = "badzone" then Except.error "no intersection"
                else Except.ok ())
      (fun z _ L => writeFeatureFields z [("slopeNDVI", 1)] L)
      [{ key := "94110", fields := [] }, { key := "badzone", fields := [] }]
      (["94110"] ++ "badzone" :: ["94016"])
      = processZones
        (fun z => if z = "badzone" then Except.error "no intersection"
                  else Except.ok ())
        (fun z _ L => writeFeatureFields z [("slopeNDVI", 1)] L)
        [{ key := "94110", fields := [] }, { key := "badzone", fields := [] }]
        (["94110"] ++ ["94016"]) :=
  c7_failing_zone_skipped
    (fun z => if z = "badzone" then Except.error "no intersection"
              else Except.ok ())
    (fun z _ L => writeFeatureFields z [("slopeNDVI", 1)] L)
    [{ key := "94110", fields := [] }, { key := "badzone", fields := [] }]
    ["94110"] ["94016"] "badzone" "no intersection" (by rfl)

/-- C1 (counterexample): for the 1990-2009 analysis (seven 3-year median
bands at offsets 1,4,...,19) an entity with only 2 valid periods (values 0
and 6, all later bands at the -9999 sentinel) does not get an undefined
Trend Result: its covariance is the finite value 9/7 — divided by the total
band count 7, not by the valid count 2 (which would give 9/2) — and its
slope is the finite value 1/28, refuting both the per-entity n and the
n < 3 invalidation asserted by the claim. -/
theorem c1_low_valid_count_not_undefined_cex :
    sinceList 1990 2009 = [1, 4, 7, 10, 13, 16, 19]
    ∧ countValid (resolveNoData (-9999)
        [0, 6, -9999, -9999, -9999, -9999, -9999] [1, 4, 7, 10, 13, 16, 19]).1 = 2
    ∧ (entityTrend ratSqrt sfModel (-9999) [1, 4, 7, 10, 13, 16, 19]
        [0, 6, -9999, -9999, -9999, -9999, -9999]).cov = F.num (9 / 7)
    ∧ (entityTrend ratSqrt sfModel (-9999) [1, 4, 7, 10, 13, 16, 19]
        [0, 6, -9999, -9999, -9999, -9999, -9999]).cov ≠ F.num (9 / 2)
    ∧ (entityTrend ratSqrt sfModel (-9999) [1, 4, 7, 10, 13, 16, 19]
        [0, 6, -9999, -9999, -9999, -9999, -9999]).slope = F.num (1 / 28)
    ∧ (entityTrend ratSqrt sfModel (-9999) [1, 4, 7, 10, 13, 16, 19]
        [0, 6, -9999, -9999, -9999, -9999, -9999]).slope ≠ F.nan := by
  decide

/-- C1 (amended): in the Vectorized Trend Statistics Computer `n` is the
total number of periods (the raster band count), not the per-entity count of
valid periods, and no fewer-than-3-valid-periods invalidation exists: for a
three-band stack in which an entity has exactly 2 valid periods, the
covariance is the nansum of the two valid cross-deviation terms divided by
the total band count 3 (the value means being taken over the 2 valid
periods, the time means — which the no-data step never invalidates — over
all 3), and the slope is a defined (non-NaN) value whenever the time
standard deviation squared is nonzero. -/
theorem c1_n_is_total_band_count (sqrt : ℚ → ℚ) (sf : ℚ → F → F)
    (t1 t2 t3 v1 v2 : ℚ)
    (hs : sqrt (varQ [t1, t2, t3]) * sqrt (varQ [t1, t2, t3]) ≠ 0) :
    countValid [F.num v1, F.num v2, F.nan] = 2
    ∧ (trendStats sqrt sf ([t1, t2, t3].map F.num) [F.num v1, F.num v2, F.nan]).cov
        = F.num (((t1 - (t1 + t2 + t3) / 3) * (v1 - (v1 + v2) / 2)
            + (t2 - (t1 + t2 + t3) / 3) * (v2 - (v1 + v2) / 2)) / 3)
    ∧ (trendStats sqrt sf ([t1, t2, t3].map F.num) [F.num v1, F.num v2, F.nan]).slope ≠ F.nan := by
  have hxm : nanmeanF ([t1, t2, t3].map F.num) = F.num ((t1 + t2 + t3) / 3) := by
    rw [nanmeanF_map_num (by simp)]
    congr 1
    simp [meanQ]
    ring
  have hym : nanmeanF [F.num v1, F.num v2, F.nan] = F.num ((v1 + v2) / 2) := by
    rw [nanmeanF]
    simp only [countValid]
    norm_num [nansumF, F.num_div_num_ne]
  have hcov : covF ([t1, t2, t3].map F.num) [F.num v1, F.num v2, F.nan]
      = F.num (((t1 - (t1 + t2 + t3) / 3) * (v1 - (v1 + v2) / 2)
          + (t2 - (t1 + t2 + t3) / 3) * (v2 - (v1 + v2) / 2)) / 3) := by
    rw [covF, hxm, hym]
    simp only [List.map_cons, List.map_nil, List.zipWith_cons_cons,
      List.zipWith_nil_right, List.length_cons, List.length_nil,
      F.num_sub_num, F.nan_sub, F.mul_nan, F.num_mul_num, nansumF,
      F.num_add_num]
    rw [F.num_div_num_ne _ (by norm_num : ((0 + 1 + 1 + 1 : ℕ) : ℚ) ≠ 0)]
    congr 1
    push_cast
    ring
  have hstd : nanstdF sqrt ([t1, t2, t3].map F.num)
      = F.num (sqrt (varQ [t1, t2, t3])) := nanstdF_map_num sqrt (by simp)
  refine ⟨by simp [countValid], ?_, ?_⟩
  · simpa [trendStats] using hcov
  · have hsl : (trendStats sqrt sf ([t1, t2, t3].map F.num)
        [F.num v1, F.num v2, F.nan]).slope
        = covF ([t1, t2, t3].map F.num) [F.num v1, F.num v2, F.nan]
          / (nanstdF sqrt ([t1, t2, t3].map F.num)
            * nanstdF sqrt ([t1, t2, t3].map F.num)) := rfl
    rw [hsl, hcov, hstd, F.num_mul_num, F.num_div_num_ne _ hs]
    simp

/-- C1 witness: the amended statement instantiated at time offsets
[1, 4, 7], valid values 0 and 6, with the concrete square root `ratSqrt`. -/
theorem c1_n_is_total_band_count_wit :
    countValid [F.num 0, F.num 6, F.nan] = 2
    ∧ (trendStats ratSqrt sfModel ([1, 4, 7].map F.num)
        [F.num 0, F.num 6, F.nan]).cov
        = F.num (((1 - (1 + 4 + 7) / 3) * (0 - (0 + 6) / 2)
            + (4 - (1 + 4 + 7) / 3) * (6 - (0 + 6) / 2)) / 3)
    ∧ (trendStats ratSqrt sfModel ([1, 4, 7].map F.num)
        [F.num 0, F.num 6, F.nan]).slope ≠ F.nan :=
  c1_n_is_total_band_count ratSqrt sfModel 1 4 7 0 6 (by decide)

/-- C4 (counterexample): for an entity whose series is exactly linear
(values equal to the time offsets 1,4,...,19, so correlation exactly 1), the
t statistic is +infinity — not the NaN undefined marker — and the standard
error `slope / t_statistic` is the silent finite value 0, exactly what the
claim says must not happen. -/
theorem c4_perfect_cor_inf_not_nan_cex :
    (entityTrend ratSqrt sfModel (-9999) [1, 4, 7, 10, 13, 16, 19]
        [1, 4, 7, 10, 13, 16, 19]).cor = F.num 1
    ∧ (entityTrend ratSqrt sfModel (-9999) [1, 4, 7, 10, 13, 16, 19]
        [1, 4, 7, 10, 13, 16, 19]).tstats = F.inf true
    ∧ (entityTrend ratSqrt sfModel (-9999) [1, 4, 7, 10, 13, 16, 19]
        [1, 4, 7, 10, 13, 16, 19]).tstats ≠ F.nan
    ∧ (entityTrend ratSqrt sfModel (-9999) [1, 4, 7, 10, 13, 16, 19]
        [1, 4, 7, 10, 13, 16, 19]).stderr = F.num 0 := by
  decide

/-- C4 (amended): for every entity whose computed correlation is exactly
±1, the t statistic is the signed infinity matching the correlation's sign
(division of a nonzero number by +0 — no crash, but not the NaN undefined
marker), and the standard error, slope divided by that infinity, is the
silent finite value 0 rather than an inherited undefined marker
(hypotheses: the square root fixes 0, n ≥ 2 so the numerator's square root
argument is nonnegative, and that square root is positive). -/
theorem c4_perfect_cor_gives_inf_and_zero_stderr (sqrt : ℚ → ℚ)
    (ts vs : List F) (s : Bool) (b : ℚ)
    (hc : corF sqrt ts vs = F.num (if s then 1 else -1))
    (hb : slopeF sqrt ts vs = F.num b)
    (h0 : sqrt 0 = 0)
    (hn2 : ¬ ((vs.length : ℚ) - 2 < 0))
    (hp : 0 < sqrt ((vs.length : ℚ) - 2)) :
    tstatsF sqrt ts vs = F.inf s
    ∧ tstatsF sqrt ts vs ≠ F.nan
    ∧ stderrF sqrt ts vs = F.num 0 := by
  have ht : tstatsF sqrt ts vs = F.inf s := by
    rw [tstatsF, hc]
    rw [F.sqrtF_num sqrt ((vs.length : ℚ) - 2), if_neg hn2]
    cases s
    · simp only [if_neg Bool.false_ne_true, F.num_mul_num, F.num_sub_num]
      norm_num
      rw [h0]
      exact F.num_div_zero_neg (by linarith)
    · simp only [if_pos rfl, F.num_mul_num, F.num_sub_num]
      norm_num
      rw [h0]
      exact F.num_div_zero_pos (by linarith)
  refine ⟨ht, by rw [ht]; simp, ?_⟩
  rw [stderrF, hb, ht]
  exact F.num_div_inf b _

/-- C4 witness: the amended statement instantiated at the exactly linear
seven-band series with `ratSqrt`, where the correlation evaluates to 1 and
the slope to 1. -/
theorem c4_perfect_cor_gives_inf_and_zero_stderr_wit :
    tstatsF ratSqrt ([1, 4, 7, 10, 13, 16, 19].map F.num)
        ([1, 4, 7, 10, 13, 16, 19].map F.num) = F.inf true
    ∧ tstatsF ratSqrt ([1, 4, 7, 10, 13, 16, 19].map F.num)
        ([1, 4, 7, 10, 13, 16, 19].map F.num) ≠ F.nan
    ∧ stderrF ratSqrt ([1, 4, 7, 10, 13, 16, 19].map F.num)
        ([1, 4, 7, 10, 13, 16, 19].map F.num) = F.num 0 :=
  c4_perfect_cor_gives_inf_and_zero_stderr ratSqrt
    ([1, 4, 7, 10, 13, 16, 19].map F.num) ([1, 4, 7, 10, 13, 16, 19].map F.num)
    true 1 (by decide) (by decide) (by decide) (by decide) (by decide)

/-- C3: for every entity whose value series is constant (value c) over all
its valid periods (at least one valid period, arbitrary missing periods),
the computed correlation, t statistic and standard error are the NaN
undefined marker — in particular neither 0 nor an infinity, which are
different constructors of `F` — while the slope is exactly 0 and the
intercept exactly the constant c (hypotheses: the square root fixes 0 and is
nonzero on the time variance, i.e. the time basis is non-degenerate). -/
theorem c3_constant_series_undefined_cor (sqrt : ℚ → ℚ) (sf : ℚ → F → F)
    (tsQ : List ℚ) (vs : List F) (c : ℚ)
    (hlen : vs.length = tsQ.length)
    (hconst : ∀ x ∈ vs, x = F.nan ∨ x = F.num c)
    (hk : countValid vs ≠ 0)
    (h0 : sqrt 0 = 0)
    (hs : sqrt (varQ tsQ) ≠ 0) :
    (trendStats sqrt sf (tsQ.map F.num) vs).cor = F.nan
    ∧ (trendStats sqrt sf (tsQ.map F.num) vs).tstats = F.nan
    ∧ (trendStats sqrt sf (tsQ.map F.num) vs).stderr = F.nan
    ∧ (trendStats sqrt sf (tsQ.map F.num) vs).slope = F.num 0
    ∧ (trendStats sqrt sf (tsQ.map F.num) vs).intercept = F.num c := by
  have hvs : vs ≠ [] := by
    intro hczero
    subst hczero
    exact hk rfl
  have htsQ : tsQ ≠ [] := by
    intro hczero
    subst hczero
    simp at hlen
    exact hvs hlen
  have hcov : covF (tsQ.map F.num) vs = F.num 0 := covF_const htsQ hconst hk
  have hystd : nanstdF sqrt vs = F.num 0 := nanstdF_const sqrt hconst hk h0
  have hxstd : nanstdF sqrt (tsQ.map F.num) = F.num (sqrt (varQ tsQ)) :=
    nanstdF_map_num sqrt htsQ
  have hym : nanmeanF vs = F.num c := nanmeanF_const hconst hk
  have hxm : nanmeanF (tsQ.map F.num) = F.num (meanQ tsQ) := nanmeanF_map_num htsQ
  have hcor : corF sqrt (tsQ.map F.num) vs = F.nan := by
    rw [corF, hcov, hystd, hxstd, F.num_mul_num, mul_zero]
    exact F.zero_div_zero
  have hslope : slopeF sqrt (tsQ.map F.num) vs = F.num 0 := by
    rw [slopeF, hcov, hxstd, F.num_mul_num,
      F.num_div_num_ne _ (mul_ne_zero hs hs), zero_div]
  have htst : tstatsF sqrt (tsQ.map F.num) vs = F.nan := by
    rw [tstatsF, hcor]
    simp
  refine ⟨hcor, htst, ?_, hslope, ?_⟩
  · rw [show (trendStats sqrt sf (tsQ.map F.num) vs).stderr
        = slopeF sqrt (tsQ.map F.num) vs / tstatsF sqrt (tsQ.map F.num) vs from rfl,
      hslope, htst]
    simp
  · rw [show (trendStats sqrt sf (tsQ.map F.num) vs).intercept
        = interceptF sqrt (tsQ.map F.num) vs from rfl,
      interceptF, hym, hxm, hslope, F.num_mul_num, mul_zero, F.num_sub_num, sub_zero]

/-- C3 witness: times [1, 4, 7], values [5, NaN, 5] (constant 5 over the two
valid periods), with the concrete square root `ratSqrt`. -/
theorem c3_constant_series_undefined_cor_wit :
    (trendStats ratSqrt sfModel ([1, 4, 7].map F.num)
        [F.num 5, F.nan, F.num 5]).cor = F.nan
    ∧ (trendStats ratSqrt sfModel ([1, 4, 7].map F.num)
        [F.num 5, F.nan, F.num 5]).tstats = F.nan
    ∧ (trendStats ratSqrt sfModel ([1, 4, 7].map F.num)
        [F.num 5, F.nan, F.num 5]).stderr = F.nan
    ∧ (trendStats ratSqrt sfModel ([1, 4, 7].map F.num)
        [F.num 5, F.nan, F.num 5]).slope = F.num 0
    ∧ (trendStats ratSqrt sfModel ([1, 4, 7].map F.num)
        [F.num 5, F.nan, F.num 5]).intercept = F.num 5 :=
  c3_constant_series_undefined_cor ratSqrt sfModel [1, 4, 7]
    [F.num 5, F.nan, F.num 5] 5 (by decide) (by decide) (by decide)
    (by decide) (by decide)

/-- C6 (counterexample): the exactly linear zero-noise series with slope
b = -1 and intercept a = 0 over the seven offsets 1,4,...,19 (all periods
valid) yields correlation -1 and exact slope -1 and a computed p-value of
2 — the t statistic is -infinity and the survival function at -infinity is
1, doubled — which is not 0 within the claimed 1e-9 tolerance, refuting the
round-trip claim as stated for negative slopes. -/
theorem c6_roundtrip_fails_negative_slope_cex :
    ([-1, -4, -7, -10, -13, -16, -19] : List ℚ)
      = ([1, 4, 7, 10, 13, 16, 19] : List ℚ).map (fun t => 0 + (-1) * t)
    ∧ (entityTrend ratSqrt sfModel (-9999) [1, 4, 7, 10, 13, 16, 19]
        [-1, -4, -7, -10, -13, -16, -19]).slope = F.num (-1)
    ∧ (entityTrend ratSqrt sfModel (-9999) [1, 4, 7, 10, 13, 16, 19]
        [-1, -4, -7, -10, -13, -16, -19]).cor = F.num (-1)
    ∧ (entityTrend ratSqrt sfModel (-9999) [1, 4, 7, 10, 13, 16, 19]
        [-1, -4, -7, -10, -13, -16, -19]).pval = F.num 2
    ∧ ¬ |(2 : ℚ) - 0| ≤ 1 / 1000000000 := by
  decide

/-- C6 (amended): the round trip holds for positive slopes: for exactly
linear zero-noise data v = a + b·t with b > 0 over at least 3 fully valid
periods with non-constant time basis, the computed slope is exactly b, the
intercept exactly a, the correlation exactly 1, and the p-value exactly 0
(hypotheses make the external square root exact at the two variances
involved, as the IEEE square root is on these perfect squares, and give the
survival function its value 0 at +infinity); for b < 0 the p-value is 2
instead of 0, and for b = 0 the correlation is undefined. -/
theorem c6_roundtrip_exact_for_positive_slope (sqrt : ℚ → ℚ) (sf : ℚ → F → F)
    (a b : ℚ) (tsQ : List ℚ)
    (hne : tsQ ≠ []) (hb : 0 < b)
    (hn : 3 ≤ tsQ.length)
    (h0 : sqrt 0 = 0)
    (hvt : sqrt (varQ tsQ) * sqrt (varQ tsQ) = varQ tsQ)
    (hvne : sqrt (varQ tsQ) ≠ 0)
    (hvv : sqrt (varQ (tsQ.map (fun t => a + b * t))) = b * sqrt (varQ tsQ))
    (hp : 0 < sqrt ((tsQ.length : ℚ) - 2))
    (hsf : sf ((tsQ.length : ℚ) - 2) (F.inf true) = F.num 0) :
    (trendStats sqrt sf (tsQ.map F.num)
        ((tsQ.map (fun t => a + b * t)).map F.num)).slope = F.num b
    ∧ (trendStats sqrt sf (tsQ.map F.num)
        ((tsQ.map (fun t => a + b * t)).map F.num)).intercept = F.num a
    ∧ (trendStats sqrt sf (tsQ.map F.num)
        ((tsQ.map (fun t => a + b * t)).map F.num)).cor = F.num 1
    ∧ (trendStats sqrt sf (tsQ.map F.num)
        ((tsQ.map (fun t => a + b * t)).map F.num)).pval = F.num 0 := by
  have hvsne : tsQ.map (fun t => a + b * t) ≠ [] := by
    intro hc
    exact hne (List.map_eq_nil.mp hc)
  have hcov : covF (tsQ.map F.num) ((tsQ.map (fun t => a + b * t)).map F.num)
      = F.num (b * varQ tsQ) := by
    rw [covF_map_num hne hvsne, covQ_affine a b hne]
  have hxstd : nanstdF sqrt (tsQ.map F.num) = F.num (sqrt (varQ tsQ)) :=
    nanstdF_map_num sqrt hne
  have hystd : nanstdF sqrt ((tsQ.map (fun t => a + b * t)).map F.num)
      = F.num (b * sqrt (varQ tsQ)) := by
    rw [nanstdF_map_num sqrt hvsne, hvv]
  have hV : varQ tsQ ≠ 0 := by
    intro hzero
    have hss : sqrt (varQ tsQ) * sqrt (varQ tsQ) = 0 := by rw [hvt]; exact hzero
    exact hvne (mul_self_eq_zero.mp hss)
  have hbV : b * varQ tsQ ≠ 0 := mul_ne_zero (ne_of_gt hb) hV
  have hcor : corF sqrt (tsQ.map F.num) ((tsQ.map (fun t => a + b * t)).map F.num)
      = F.num 1 := by
    rw [corF, hcov, hxstd, hystd, F.num_mul_num]
    have hden : sqrt (varQ tsQ) * (b * sqrt (varQ tsQ)) = b * varQ tsQ := by
      have hcomm : sqrt (varQ tsQ) * (b * sqrt (varQ tsQ))
          = b * (sqrt (varQ tsQ) * sqrt (varQ tsQ)) := by ring
      rw [hcomm, hvt]
    rw [hden, F.num_div_num_ne _ hbV, div_self hbV]
  have hslope : slopeF sqrt (tsQ.map F.num) ((tsQ.map (fun t => a + b * t)).map F.num)
      = F.num b := by
    rw [slopeF, hcov, hxstd, F.num_mul_num, hvt, F.num_div_num_ne _ hV,
      mul_div_assoc, div_self hV, mul_one]
  have hmean_vs : nanmeanF ((tsQ.map (fun t => a + b * t)).map F.num)
      = F.num (a + b * meanQ tsQ) := by
    rw [nanmeanF_map_num hvsne, meanQ_affine a b hne]
  have hintercept : interceptF sqrt (tsQ.map F.num)
      ((tsQ.map (fun t => a + b * t)).map F.num) = F.num a := by
    rw [interceptF, hmean_vs, nanmeanF_map_num hne, hslope, F.num_mul_num,
      F.num_sub_num]
    congr 1
    ring
  have hlen2 : (((tsQ.map (fun t => a + b * t)).map F.num).length : ℚ) - 2
      = (tsQ.length : ℚ) - 2 := by simp
  have hn2 : ¬ ((((tsQ.map (fun t => a + b * t)).map F.num).length : ℚ) - 2 < 0) := by
    rw [hlen2]
    have hcast : (3 : ℚ) ≤ (tsQ.length : ℚ) := by exact_mod_cast hn
    linarith
  have htst : tstatsF sqrt (tsQ.map F.num) ((tsQ.map (fun t => a + b * t)).map F.num)
      = F.inf true := by
    rw [tstatsF, hcor]
    rw [F.sqrtF_num sqrt, if_neg hn2]
    simp only [F.num_mul_num, F.num_sub_num]
    norm_num
    rw [h0]
    exact F.num_div_zero_pos hp
  have hpval : pvalF sqrt sf (tsQ.map F.num) ((tsQ.map (fun t => a + b * t)).map F.num)
      = F.num 0 := by
    rw [pvalF, pvalOf, htst, hlen2, hsf, F.num_mul_num, zero_mul]
  exact ⟨hslope, hintercept, hcor, hpval⟩

/-- C6 witness: the amended round trip instantiated at a = 2, b = 1 over the
offsets 1,4,...,19 (time variance 36 and value variance 36, both perfect
squares, so `ratSqrt` is the exact square root at every point involved). -/
theorem c6_roundtrip_exact_for_positive_slope_wit :
    (trendStats ratSqrt sfModel (([1, 4, 7, 10, 13, 16, 19] : List ℚ).map F.num)
        ((([1, 4, 7, 10, 13, 16, 19] : List ℚ).map (fun t => 2 + 1 * t)).map F.num)).slope
      = F.num 1
    ∧ (trendStats ratSqrt sfModel (([1, 4, 7, 10, 13, 16, 19] : List ℚ).map F.num)
        ((([1, 4, 7, 10, 13, 16, 19] : List ℚ).map (fun t => 2 + 1 * t)).map F.num)).intercept
      = F.num 2
    ∧ (trendStats ratSqrt sfModel (([1, 4, 7, 10, 13, 16, 19] : List ℚ).map F.num)
        ((([1, 4, 7, 10, 13, 16, 19] : List ℚ).map (fun t => 2 + 1 * t)).map F.num)).cor
      = F.num 1
    ∧ (trendStats ratSqrt sfModel (([1, 4, 7, 10, 13, 16, 19] : List ℚ).map F.num)
        ((([1, 4, 7, 10, 13, 16, 19] : List ℚ).map (fun t => 2 + 1 * t)).map F.num)).pval
      = F.num 0 :=
  c6_roundtrip_exact_for_positive_slope ratSqrt sfModel 2 1
    [1, 4, 7, 10, 13, 16, 19] (by decide) (by decide) (by decide) (by decide)
    (by decide) (by decide) (by decide) (by decide) (by decide)

/-- Helper: a feature of a layer after a single-field filtered write comes
from a source feature with the same key; a matching feature has the written
field set, and every other field name keeps its source value. -/
theorem write_single_mem {key nm : String} {v : ℚ} {L : List Feature} {g : Feature}
    (hg : g ∈ writeFeatureFields key [(nm, v)] L) :
    ∃ f ∈ L, g.key = f.key
      ∧ (f.key = key → lookupField g.fields nm = some v)
      ∧ ∀ m : String, m ≠ nm → lookupField g.fields m = lookupField f.fields m := by
  rcases writeFeatureFields_mem hg with ⟨f, hf, hcase⟩
  rcases hcase with ⟨hfk, rfl⟩ | ⟨hfk, heq⟩
  · refine ⟨f, hf, applyFields_key _ _, fun _ => ?_, fun m hm => ?_⟩
    · exact lookupField_updateAssoc_self f.fields nm v
    · exact lookupField_updateAssoc_ne f.fields v hm
  · exact ⟨f, hf, by rw [heq], fun hc => absurd hc hfk, fun m hm => by rw [heq]⟩

/-- C8: the Feature Attribute Writer is idempotent — writing the same field
values for the same zone key twice leaves the layer exactly as one write
does, the feature count is always preserved (the writer only maps over
existing features, never duplicates), and every feature matching the key
receives the identical written value for each field (field names within one
invocation are distinct, as the statistic field names of the source are). -/
theorem c8_writer_idempotent (key : String) (vals : List (String × ℚ))
    (L : List Feature) (hnd : (vals.map Prod.fst).Nodup) :
    writeFeatureFields key vals (writeFeatureFields key vals L)
      = writeFeatureFields key vals L
    ∧ (writeFeatureFields key vals L).length = L.length
    ∧ ∀ g ∈ writeFeatureFields key vals L, g.key = key →
        ∀ p ∈ vals, lookupField g.fields p.1 = some p.2 := by
  refine ⟨?_, by simp [writeFeatureFields], ?_⟩
  · simp only [writeFeatureFields]
    rw [List.map_map]
    apply List.map_congr_left
    intro f _
    dsimp only [Function.comp]
    by_cases hk : f.key = key
    · rw [if_pos hk, if_pos (by rw [applyFields_key]; exact hk)]
      exact applyFields_absorb (fun p hp => applyFields_lookup_mem hnd f p hp)
    · rw [if_neg hk, if_neg hk]
  · intro g hg hk p hp
    rcases writeFeatureFields_mem hg with ⟨f, hf, hcase⟩
    rcases hcase with ⟨hfk, rfl⟩ | ⟨hfk, rfl⟩
    · exact applyFields_lookup_mem hnd f p hp
    · exact absurd hk hfk

/-- C8 witness: a concrete layer with two features sharing the key and one
other feature, written twice with two statistic fields. -/
theorem c8_writer_idempotent_wit :
    writeFeatureFields "94110" [("covNDVI", 1 / 2), ("slopeNDVI", 2)]
        (writeFeatureFields "94110" [("covNDVI", 1 / 2), ("slopeNDVI", 2)]
          [{ key := "94110", fields := [("covNDVI", 9)] },
           { key := "94110", fields := [] },
           { key := "94016", fields := [] }])
      = writeFeatureFields "94110" [("covNDVI", 1 / 2), ("slopeNDVI", 2)]
          [{ key := "94110", fields := [("covNDVI", 9)] },
           { key := "94110", fields := [] },
           { key := "94016", fields := [] }]
    ∧ (writeFeatureFields "94110" [("covNDVI", 1 / 2), ("slopeNDVI", 2)]
          [{ key := "94110", fields := [("covNDVI", 9)] },
           { key := "94110", fields := [] },
           { key := "94016", fields := [] }]).length
      = ([{ key := "94110", fields := [("covNDVI", 9)] },
          { key := "94110", fields := [] },
          { key := "94016", fields := [] }] : List Feature).length
    ∧ ∀ g ∈ writeFeatureFields "94110" [("covNDVI", 1 / 2), ("slopeNDVI", 2)]
          [{ key := "94110", fields := [("covNDVI", 9)] },
           { key := "94110", fields := [] },
           { key := "94016", fields := [] }], g.key = "94110" →
        ∀ p ∈ [("covNDVI", (1 : ℚ) / 2), ("slopeNDVI", 2)],
          lookupField g.fields p.1 = some p.2 :=
  c8_writer_idempotent "94110" [("covNDVI", 1 / 2), ("slopeNDVI", 2)]
    [{ key := "94110", fields := [("covNDVI", 9)] },
     { key := "94110", fields := [] },
     { key := "94016", fields := [] }] (by decide)

/-- C10: every feature matching the zone key after the class-area write loop
carries greenArea, waterArea and urbanArea fields whose values are the pixel
count of the corresponding class (1 green, 2 water, 3 urban) in the masked
grid multiplied by the 5-by-5 pixel size, a class with no pixels in the zone
yielding the value 0 rather than a missing field; and on the
`CollectCensusTractStats2` path a zonal sum of `None` also becomes area 0. -/
theorem c10_class_areas (grid : List ℚ) (key : String) (L : List Feature) :
    (∀ g ∈ writeClassAreas grid key L, g.key = key →
      lookupField g.fields "greenArea" = some ((countClass grid 1 : ℚ) * 5 * 5)
      ∧ lookupField g.fields "waterArea" = some ((countClass grid 2 : ℚ) * 5 * 5)
      ∧ lookupField g.fields "urbanArea" = some ((countClass grid 3 : ℚ) * 5 * 5)
      ∧ (countClass grid 2 = 0 → lookupField g.fields "waterArea" = some 0))
    ∧ sumOrZero none * 5 * 5 = 0 := by
  refine ⟨?_, by simp [sumOrZero]⟩
  intro g hg hk
  rw [writeClassAreas] at hg
  obtain ⟨f2, hf2, hk2, hurban, hpres2⟩ := write_single_mem hg
  obtain ⟨f1, hf1, hk1, hwater, hpres1⟩ := write_single_mem hf2
  obtain ⟨f0, hf0, hk0, hgreen, hpres0⟩ := write_single_mem hf1
  have hf2key : f2.key = key := by rw [← hk2]; exact hk
  have hf1key : f1.key = key := by rw [← hk1]; exact hf2key
  have hf0key : f0.key = key := by rw [← hk0]; exact hf1key
  have hgval : lookupField g.fields "greenArea"
      = some ((countClass grid 1 : ℚ) * 5 * 5) := by
    rw [hpres2 "greenArea" (by decide), hpres1 "greenArea" (by decide)]
    exact hgreen hf0key
  have hwval : lookupField g.fields "waterArea"
      = some ((countClass grid 2 : ℚ) * 5 * 5) := by
    rw [hpres2 "waterArea" (by decide)]
    exact hwater hf1key
  have huval : lookupField g.fields "urbanArea"
      = some ((countClass grid 3 : ℚ) * 5 * 5) := hurban hf2key
  refine ⟨hgval, hwval, huval, fun hz => ?_⟩
  rw [hwval, hz]
  norm_num

/-- C10 witness: the spec's concrete scenario — a 10-by-10 masked grid with
4 pixels of class 1 (green) at 5-by-5 resolution gives greenArea
4 x 25 = 100 area units, and the absent classes give 0, on the single
matching feature of a one-feature layer. -/
theorem c10_class_areas_wit :
    (lookupField (Feature.mk "94110"
          [("greenArea", 100), ("waterArea", 0), ("urbanArea", 0)]).fields
        "greenArea"
      = some ((countClass (List.replicate 4 (1 : ℚ) ++ List.replicate 96 0) 1 : ℚ) * 5 * 5)
    ∧ lookupField (Feature.mk "94110"
          [("greenArea", 100), ("waterArea", 0), ("urbanArea", 0)]).fields
        "waterArea"
      = some ((countClass (List.replicate 4 (1 : ℚ) ++ List.replicate 96 0) 2 : ℚ) * 5 * 5)
    ∧ lookupField (Feature.mk "94110"
          [("greenArea", 100), ("waterArea", 0), ("urbanArea", 0)]).fields
        "urbanArea"
      = some ((countClass (List.replicate 4 (1 : ℚ) ++ List.replicate 96 0) 3 : ℚ) * 5 * 5)
    ∧ (countClass (List.replicate 4 (1 : ℚ) ++ List.replicate 96 0) 2 = 0 →
        lookupField (Feature.mk "94110"
            [("greenArea", 100), ("waterArea", 0), ("urbanArea", 0)]).fields
          "waterArea" = some 0))
    ∧ ((countClass (List.replicate 4 (1 : ℚ) ++ List.replicate 96 0) 1 : ℚ) * 5 * 5
        = 100) :=
  ⟨(c10_class_areas (List.replicate 4 (1 : ℚ) ++ List.replicate 96 0) "94110"
      [{ key := "94110", fields := [] }]).1
    (Feature.mk "94110" [("greenArea", 100), ("waterArea", 0), ("urbanArea", 0)])
    (by decide) (by decide), by decide⟩
